import Mathlib

/-!
Verification of the document-templating subsystem of the CapstoneProject
backend (placeholder filler, replacement applier, content extractor and
AI-suggestion client).  Python text values are embedded as `List Char`
(named `Str` below); Python dicts appear as association lists in insertion
order (Python ≥ 3.7 iterates dicts in insertion order, and the dicts built
by this code have distinct keys); Python sets are embedded as
duplicate-free lists accumulated in insertion order (a Python `set` makes
no ordering promise, so only membership and distinctness of the embedded
lists are meaningful).
-/

/-- Python text embedded character by character. -/
abbrev Str := List Char

/-- The characters removed by Python `str.strip()` with no argument
(ASCII whitespace; the model restricts Python's Unicode notion to ASCII). -/
def isPySpace (c : Char) : Bool :=
  c = ' ' || c = '\t' || c = '\n' || c = '\r' || c = '\x0b' || c = '\x0c'

/-- Python `str.strip()`. -/
def pyStrip (s : Str) : Str :=
  ((s.dropWhile isPySpace).reverse.dropWhile isPySpace).reverse

/-- Python `str.rstrip()`. -/
def pyRstrip (s : Str) : Str :=
  (s.reverse.dropWhile isPySpace).reverse

/-- Python `str.lower()` (ASCII model). -/
def pyLower (s : Str) : Str := s.map Char.toLower

/-- Python `needle in haystack` substring test. -/
def containsSub (pat : Str) : Str → Bool
  | [] => pat.isEmpty
  | c :: rest => pat.isPrefixOf (c :: rest) || containsSub pat rest

/-- Python `str.replace(pat, rep)`: replaces every non-overlapping
occurrence left to right.  (Python treats an empty pattern specially by
interleaving `rep` everywhere; no call in this development uses an empty
pattern, and this model leaves the text unchanged in that case.) -/
def replaceAllF (pat rep : Str) : Nat → Str → Str
  | 0, s => s
  | _ + 1, [] => []
  | fuel + 1, c :: rest =>
    if pat.isPrefixOf (c :: rest) ∧ pat ≠ [] then
      rep ++ replaceAllF pat rep fuel ((c :: rest).drop pat.length)
    else
      c :: replaceAllF pat rep fuel rest

/-- `replaceAllF` with enough fuel for any input: every recursive call
consumes at least one character of the text. -/
def replaceAll (pat rep s : Str) : Str := replaceAllF pat rep s.length s

/-- Python `str.rfind(pat)` (index of the rightmost occurrence), as an
`Option` instead of `-1` for absence. -/
def rfindSub (pat : Str) : Str → Option Nat
  | [] => if pat.isPrefixOf [] then some 0 else none
  | c :: rest =>
    match rfindSub pat rest with
    | some i => some (i + 1)
    | none => if pat.isPrefixOf (c :: rest) then some 0 else none

/-- Python `str.count(c)` for a single-character needle. -/
def countChar (c : Char) (s : Str) : Nat := s.count c

/--
All matches of the pattern `r'\{\{([^}]+)\}\}'` in a text, in the order
`re.finditer`/`re.findall` produce them (leftmost, non-overlapping),
returned as the capture groups (the text strictly between the braces).
`QuotationFillerService.placeholder_pattern` (quotation_filler.py line 18).
-/
def scanTokensF : Nat → Str → List Str
  | 0, _ => []
  | fuel + 1, s =>
    match s with
    | '\x7b' :: '\x7b' :: rest =>
      match rest.dropWhile (fun c => c ≠ '\x7d') with
      | '\x7d' :: '\x7d' :: rest' =>
        if rest.takeWhile (fun c => c ≠ '\x7d') = [] then
          scanTokensF fuel ('\x7b' :: rest)
        else
          rest.takeWhile (fun c => c ≠ '\x7d') :: scanTokensF fuel rest'
      | _ => scanTokensF fuel ('\x7b' :: rest)
    | _ :: rest => scanTokensF fuel rest
    | [] => []

/-- `scanTokensF` with enough fuel for any input: every recursive call of
the scan moves at least one character forward. -/
def scanTokens (s : Str) : List Str := scanTokensF (s.length + 1) s

/-- Insert a string into the insertion-order model of a Python set
(`set.add`): appended at the end unless already present. -/
def insertIfAbsent (x : Str) (l : List Str) : List Str :=
  if x ∈ l then l else l ++ [x]

/-- Union into the insertion-order model of a Python set (`set.update`). -/
def insertAllNew (l : List Str) (new : List Str) : List Str :=
  new.foldl (fun acc x => insertIfAbsent x acc) l

/-- One formatting run of a paragraph.  Only `text` is ever written by the
code under verification; the remaining fields stand for the run-level
formatting state (bold/italic/font/color) that python-docx addresses
independently of the text. -/
structure Run where
  text : Str
  bold : Bool
  italic : Bool
  font : Str
  color : Str
deriving DecidableEq, Repr

/-- Paragraph alignment values distinguished by the extractor
(`WD_PARAGRAPH_ALIGNMENT`); `other` stands for any further enum member. -/
inductive ParaAlignment where
  | left
  | center
  | right
  | justify
  | other
deriving DecidableEq, Repr

/-- A paragraph: a style name and an ordered list of runs, plus the
alignment read by the extractor. -/
structure Paragraph where
  style : Str
  alignment : Option ParaAlignment
  runs : List Run
deriving DecidableEq, Repr

/-- `paragraph.text` in python-docx: the concatenation of the run texts. -/
def paraText (p : Paragraph) : Str :=
  (p.runs.map Run.text).foldl (· ++ ·) []

/-- A table cell contains a list of paragraphs. -/
abbrev Cell := List Paragraph

/-- A table is a row/cell matrix. -/
abbrev Table := List (List Cell)

/-- One section of a document, exposing its header and footer paragraphs. -/
structure Section where
  header : List Paragraph
  footer : List Paragraph
deriving DecidableEq, Repr

/-- The document structure exposed by python-docx and traversed by the
code under verification: body paragraphs, tables, and per-section
headers/footers. -/
structure DocumentM where
  paragraphs : List Paragraph
  tables : List Table
  sections : List Section
deriving DecidableEq, Repr

/-- A run with default formatting, as created when python-docx assigns a
plain string to a `.text` property. -/
def defaultRun (t : Str) : Run := ⟨t, false, false, [], []⟩

/-- Paragraph-construction helper for concrete examples. -/
def mkPara (rs : List Run) : Paragraph := ⟨[], none, rs⟩

/--
The per-run body of `QuotationFillerService._fill_paragraph`
(quotation_filler.py lines 148-165): iterate over the matches found in the
run's original text; a match whose stripped name resolves to a non-empty
value replaces every occurrence of the full token in the evolving text; a
match whose name is absent or resolves to the empty value is recorded as
unfilled and leaves the text alone.  Returns the final run text and the
unfilled names collected from this run.
-/
def fillRunText (m : List (Str × Str)) (t : Str) : Str × List Str :=
  (scanTokens t).foldl
    (fun acc g =>
      match List.lookup (pyStrip g) m with
      | some v =>
        if v ≠ [] then
          (replaceAll ('\x7b' :: '\x7b' :: (g ++ ['\x7d', '\x7d'])) v acc.1, acc.2)
        else
          (acc.1, insertIfAbsent (pyStrip g) acc.2)
      | none => (acc.1, insertIfAbsent (pyStrip g) acc.2))
    (t, [])

/--
`QuotationFillerService._fill_paragraph` (quotation_filler.py lines
131-167): if the paragraph's full text contains no `{{...}}` token the
paragraph is returned untouched with no unfilled names; otherwise every
run is rewritten by `fillRunText` and the unfilled names of all runs are
collected into one set.
-/
def fill_paragraph (m : List (Str × Str)) (p : Paragraph) : Paragraph × List Str :=
  if scanTokens (paraText p) = [] then (p, [])
  else
    let r := p.runs.foldl
      (fun (acc : List Run × List Str) run =>
        (acc.1 ++ [{ run with text := (fillRunText m run.text).1 }],
         insertAllNew acc.2 (fillRunText m run.text).2))
      ([], [])
    ({ p with runs := r.1 }, r.2)

/-- Fill a list of paragraphs in order, collecting unfilled names. -/
def fillParas (m : List (Str × Str)) (ps : List Paragraph) : List Paragraph × List Str :=
  ps.foldl
    (fun acc p =>
      (acc.1 ++ [(fill_paragraph m p).1], insertAllNew acc.2 (fill_paragraph m p).2))
    ([], [])

/-- The cell level of the table traversal of
`fill_template_with_client_data` (quotation_filler.py lines 53-57). -/
def fillCells (m : List (Str × Str)) (row : List Cell) (u0 : List Str) :
    List Cell × List Str :=
  row.foldl
    (fun (acc : List Cell × List Str) cell =>
      (acc.1 ++ [(fillParas m cell).1], insertAllNew acc.2 (fillParas m cell).2))
    ([], u0)

/-- The row level of the table traversal. -/
def fillRows (m : List (Str × Str)) (t : Table) (u0 : List Str) : Table × List Str :=
  t.foldl
    (fun (acc : Table × List Str) row =>
      (acc.1 ++ [(fillCells m row acc.2).1], (fillCells m row acc.2).2))
    ([], u0)

/-- The table level of the traversal (quotation_filler.py lines 53-57). -/
def fillTables (m : List (Str × Str)) (ts : List Table) (u0 : List Str) :
    List Table × List Str :=
  ts.foldl
    (fun (acc : List Table × List Str) t =>
      (acc.1 ++ [(fillRows m t acc.2).1], (fillRows m t acc.2).2))
    ([], u0)

/-- The header pass over the sections (quotation_filler.py lines 60-63). -/
def fillHeaders (m : List (Str × Str)) (ss : List Section) (u0 : List Str) :
    List Section × List Str :=
  ss.foldl
    (fun (acc : List Section × List Str) s =>
      (acc.1 ++ [{ s with header := (fillParas m s.header).1 }],
       insertAllNew acc.2 (fillParas m s.header).2))
    ([], u0)

/-- The footer pass over the sections (quotation_filler.py lines 66-69). -/
def fillFooters (m : List (Str × Str)) (ss : List Section) (u0 : List Str) :
    List Section × List Str :=
  ss.foldl
    (fun (acc : List Section × List Str) s =>
      (acc.1 ++ [{ s with footer := (fillParas m s.footer).1 }],
       insertAllNew acc.2 (fillParas m s.footer).2))
    ([], u0)

/--
The traversal of `QuotationFillerService.fill_template_with_client_data`
(quotation_filler.py lines 46-77) with the placeholder map abstracted: the
map produced by `_create_placeholder_map` depends on the wall-clock date,
so the claims quantify over the map.  Body paragraphs, then table cells,
then section headers, then section footers are filled, and the unfilled
names are accumulated into one set, returned as `list(unfilled)`.
-/
def fill_template_with_client_data (m : List (Str × Str)) (d : DocumentM) :
    DocumentM × List Str :=
  let bp := fillParas m d.paragraphs
  let tb := fillTables m d.tables bp.2
  let hd := fillHeaders m d.sections tb.2
  let ft := fillFooters m hd.1 hd.2
  (⟨bp.1, tb.1, ft.1⟩, ft.2)

/-! ### JSON values and a model of Python `json.loads` -/

/-- Parsed JSON values.  Numeric literals are kept verbatim (no claim in
this development inspects a numeric value). -/
inductive JValue where
  | jnull
  | jbool (b : Bool)
  | jnum (lit : Str)
  | jstr (s : Str)
  | jarr (items : List JValue)
  | jobj (fields : List (Str × JValue))
deriving BEq

/-- JSON whitespace accepted between tokens by `json.loads`. -/
def isJsonWs (c : Char) : Bool :=
  c = ' ' || c = '\t' || c = '\n' || c = '\r'

/-- Skip JSON whitespace. -/
def skipWs (s : Str) : Str := s.dropWhile isJsonWs

/-- The character denoted by a single-character JSON escape, if legal. -/
def jsonEscape (c : Char) : Option Char :=
  if c = '"' then some '"'
  else if c = '\\' then some '\\'
  else if c = '/' then some '/'
  else if c = 'b' then some '\x08'
  else if c = 'f' then some '\x0c'
  else if c = 'n' then some '\n'
  else if c = 'r' then some '\r'
  else if c = 't' then some '\t'
  else none

/-- Value of a hexadecimal digit. -/
def hexVal (c : Char) : Option Nat :=
  if '0' ≤ c ∧ c ≤ '9' then some (c.toNat - '0'.toNat)
  else if 'a' ≤ c ∧ c ≤ 'f' then some (c.toNat - 'a'.toNat + 10)
  else if 'A' ≤ c ∧ c ≤ 'F' then some (c.toNat - 'A'.toNat + 10)
  else none

/-- Body of a JSON string after the opening quote: returns the decoded
characters and the input after the closing quote.  Unescaped control
characters are rejected, as in `json.loads` (strict mode).  Surrogate-pair
handling of `\uXXXX` is approximated by `Char.ofNat`. -/
def parseStringBody : Str → Option (Str × Str)
  | [] => none
  | '"' :: rest => some ([], rest)
  | '\\' :: 'u' :: a :: b :: c :: d :: rest => do
    let va ← hexVal a
    let vb ← hexVal b
    let vc ← hexVal c
    let vd ← hexVal d
    let (s, r) ← parseStringBody rest
    pure (Char.ofNat (((va * 16 + vb) * 16 + vc) * 16 + vd) :: s, r)
  | '\\' :: e :: rest => do
    let ch ← jsonEscape e
    let (s, r) ← parseStringBody rest
    pure (ch :: s, r)
  | c :: rest =>
    if c.toNat < 32 then none
    else (parseStringBody rest).map (fun p => (c :: p.1, p.2))

/-- A JSON numeric literal (`-?(0|[1-9][0-9]*)(\.[0-9]+)?([eE][+-]?[0-9]+)?`):
returns the lexeme and the rest of the input. -/
def parseNumber (s : Str) : Option (Str × Str) :=
  let (sign, s1) := match s with
    | '-' :: r => (['-'], r)
    | r => ([], r)
  let intDigits := s1.takeWhile Char.isDigit
  let s2 := s1.dropWhile Char.isDigit
  let intOk : Bool :=
    match intDigits with
    | [] => false
    | ['0'] => true
    | c :: _ => c ≠ '0'
  if intOk then
    let (frac, s3) := match s2 with
      | '.' :: r =>
        let ds := r.takeWhile Char.isDigit
        if ds = [] then ([], s2) else ('.' :: ds, r.dropWhile Char.isDigit)
      | _ => ([], s2)
    let (ex, s4) := match s3 with
      | e :: r =>
        if e = 'e' ∨ e = 'E' then
          let (es, r2) := match r with
            | '+' :: r3 => (['+'], r3)
            | '-' :: r3 => (['-'], r3)
            | r3 => ([], r3)
          let ds := r2.takeWhile Char.isDigit
          if ds = [] then (([] : Str), s3)
          else (e :: (es ++ ds), r2.dropWhile Char.isDigit)
        else ([], s3)
      | [] => ([], s3)
    some (sign ++ intDigits ++ frac ++ ex, s4)
  else none

mutual

/-- Parse one JSON value (recursive descent, fuel-bounded; the fuel given
by `jsonLoads` suffices for any input because every recursive call first
consumes at least one input character). -/
def parseVal : Nat → Str → Option (JValue × Str)
  | 0, _ => none
  | fuel + 1, s =>
    match skipWs s with
    | '\x7b' :: rest =>
      match skipWs rest with
      | '\x7d' :: r => some (.jobj [], r)
      | s' => (parseObjCont fuel s').map (fun p => (.jobj p.1, p.2))
    | '[' :: rest =>
      match skipWs rest with
      | ']' :: r => some (.jarr [], r)
      | s' => (parseArrCont fuel s').map (fun p => (.jarr p.1, p.2))
    | '"' :: rest => (parseStringBody rest).map (fun p => (.jstr p.1, p.2))
    | 't' :: 'r' :: 'u' :: 'e' :: rest => some (.jbool true, rest)
    | 'f' :: 'a' :: 'l' :: 's' :: 'e' :: rest => some (.jbool false, rest)
    | 'n' :: 'u' :: 'l' :: 'l' :: rest => some (.jnull, rest)
    | s' => (parseNumber s').map (fun p => (.jnum p.1, p.2))

/-- Parse the elements of a non-empty JSON array (after `[`). -/
def parseArrCont : Nat → Str → Option (List JValue × Str)
  | 0, _ => none
  | fuel + 1, s => do
    let (v, r1) ← parseVal fuel s
    match skipWs r1 with
    | ']' :: r => some ([v], r)
    | ',' :: r => (parseArrCont fuel r).map (fun p => (v :: p.1, p.2))
    | _ => none

/-- Parse the members of a non-empty JSON object (after `{`). -/
def parseObjCont : Nat → Str → Option (List (Str × JValue) × Str)
  | 0, _ => none
  | fuel + 1, s =>
    match skipWs s with
    | '"' :: rest => do
      let (key, r1) ← parseStringBody rest
      match skipWs r1 with
      | ':' :: r2 => do
        let (v, r3) ← parseVal fuel r2
        match skipWs r3 with
        | '\x7d' :: r => some ([(key, v)], r)
        | ',' :: r => (parseObjCont fuel r).map (fun p => ((key, v) :: p.1, p.2))
        | _ => none
      | _ => none
    | _ => none

end

/-- Model of Python `json.loads`: parse one JSON value and require that
only whitespace remains. -/
def jsonLoads (s : Str) : Option JValue :=
  match parseVal (2 * s.length + 2) s with
  | some (v, rest) => if skipWs rest = [] then some v else none
  | none => none

/-- The failure mode of the repair path: the spec's taxonomy names the
error raised at the end of `_repair_truncated_json` (a
`json.JSONDecodeError` carrying "Could not repair truncated AI response")
`AIResponseTruncatedError`. -/
inductive RepairError where
  | AIResponseTruncatedError
deriving DecidableEq, Repr

/-- The trimming step of `_repair_truncated_json` (ai_template_analyzer.py
lines 149-154): cut the text just after the rightmost `},`; if there is
none, just after the rightmost `}]`; otherwise leave it alone. -/
def trimToLastBoundary (r : Str) : Str :=
  match rfindSub ['\x7d', ','] r with
  | some i => r.take (i + 1)
  | none =>
    match rfindSub ['\x7d', ']'] r with
    | some i => r.take (i + 1)
    | none => r

/-- The closing step of `_repair_truncated_json` (ai_template_analyzer.py
lines 156-161): count unmatched braces and brackets and append the
closing brackets first, then the closing braces. -/
def closeOpenStructures (r : Str) : Str :=
  let openBraces : Int := (countChar '\x7b' r : Int) - (countChar '\x7d' r : Int)
  let openBrackets : Int := (countChar '[' r : Int) - (countChar ']' r : Int)
  r ++ List.replicate (max 0 openBrackets).toNat ']'
    ++ List.replicate (max 0 openBraces).toNat '\x7d'

/-- `AITemplateAnalyzer._repair_truncated_json` (ai_template_analyzer.py
lines 131-168): parse as-is; on failure right-strip, trim to the last
complete object boundary, close the open structures and re-parse; on a
second failure raise. -/
def repair_truncated_json (text : Str) : Except RepairError JValue :=
  match jsonLoads text with
  | some v => .ok v
  | none =>
    let repaired := closeOpenStructures (trimToLastBoundary (pyRstrip text))
    match jsonLoads repaired with
    | some v => .ok v
    | none => .error .AIResponseTruncatedError

/-- The three-stage repair procedure as the spec words it: (1) parse the
text as-is; (2) otherwise trim the text back to the rightmost `},`/`}]`
boundary, append one closing bracket per unmatched `[` and one closing
brace per unmatched `{`, and re-parse; (3) if that still fails, fail with
`AIResponseTruncatedError`. -/
def spec_stagedRepair (text : Str) : Except RepairError JValue :=
  match jsonLoads text with
  | some v => .ok v
  | none =>
    match jsonLoads (closeOpenStructures (trimToLastBoundary (pyRstrip text))) with
    | some v => .ok v
    | none => .error .AIResponseTruncatedError

/-! ### AI response post-processing (`_parse_ai_response`) -/

/-- The leftmost index at which `needle` occurs in `hay` when both are
lowercased: the model of `re.search(re.escape(needle), hay, re.IGNORECASE)`
(ASCII case folding). -/
def findCI (needle : Str) : Str → Option Nat
  | [] => if needle.isEmpty then some 0 else none
  | c :: t =>
    if (pyLower needle).isPrefixOf (pyLower (c :: t)) then some 0
    else (findCI needle t).map (fun i => i + 1)

/-- `needle` occurs (case-insensitively) at index `i` of `hay`. -/
def occursCIAt (needle hay : Str) (i : Nat) : Prop :=
  (pyLower needle).isPrefixOf (pyLower (hay.drop i)) = true

/-- One variable suggestion as read out of the parsed AI response by
`_parse_ai_response` (ai_template_analyzer.py lines 355-390).  The string
fields are those read with `var_data.get(...)`; the float `confidence`
passthrough is outside this model (no claim touches it). -/
structure VarIn where
  name : Str
  original_text : Str
  suggested_placeholder : Str
  description : Str
  vtype : Str
  context : Str
deriving DecidableEq, Repr

/-- A `TemplateVariable` produced by `_parse_ai_response`: the input
fields plus the recovered offsets. -/
structure TemplateVariable where
  name : Str
  original_text : Str
  suggested_placeholder : Str
  description : Str
  vtype : Str
  context : Str
  start_position : Option Nat
  end_position : Option Nat
deriving DecidableEq, Repr

/-- The per-variable body of `_parse_ai_response` (ai_template_analyzer.py
lines 360-381): when `original_text` is non-empty, a case-insensitive
search of it in the document text sets the offsets of the first match;
otherwise the offsets stay unset. -/
def recoveredOffsets (clean : Str) (orig : Str) : Option Nat × Option Nat :=
  if orig ≠ [] then
    match findCI orig clean with
    | some i => (some i, some (i + orig.length))
    | none => (none, none)
  else (none, none)

/-- The `TemplateVariable` built for one suggestion (the field reads plus
the recovered offsets). -/
def processVariable (clean : Str) (v : VarIn) : TemplateVariable :=
  ⟨v.name, v.original_text, v.suggested_placeholder, v.description, v.vtype,
    v.context, (recoveredOffsets clean v.original_text).1,
    (recoveredOffsets clean v.original_text).2⟩

/-- The sort key of `variables.sort(key=lambda x: x.start_position if
x.start_position is not None else 0)`. -/
def sortKey (x : TemplateVariable) : Nat := x.start_position.getD 0

/-- The variable list produced by `_parse_ai_response` (ai_template_analyzer.py
lines 357-384): offsets recovered per variable, then a stable ascending
sort by `sortKey` (Python `list.sort` is stable; `List.mergeSort` is the
stable sort of the Lean library). -/
def parse_ai_response_variables (clean : Str) (vars : List VarIn) :
    List TemplateVariable :=
  (vars.map (processVariable clean)).mergeSort (fun a b => sortKey a ≤ sortKey b)

/-! ### Heading level (`_get_heading_level`) -/

/-- Digit run to number (`int` of the matched digits). -/
def digitsToNat (ds : Str) : Nat :=
  ds.foldl (fun n c => n * 10 + (c.toNat - '0'.toNat)) 0

/-- The leftmost match of `heading\s*(\d+)` in a lowercased style name:
the literal `heading`, optional whitespace, then at least one digit
(greedy). -/
def findHeadingNum : Str → Option Nat
  | [] => none
  | c :: t =>
    if "heading".data.isPrefixOf (c :: t) then
      let rest := (c :: t).drop 7
      let ds := (rest.dropWhile isPySpace).takeWhile Char.isDigit
      if ds = [] then findHeadingNum t
      else some (digitsToNat ds)
    else findHeadingNum t

/-- The leftmost match of `h(\d+)`: the literal `h` followed by at least
one digit (greedy). -/
def findHNum : Str → Option Nat
  | [] => none
  | c :: t =>
    if c = 'h' then
      let ds := t.takeWhile Char.isDigit
      if ds = [] then findHNum t else some (digitsToNat ds)
    else findHNum t

/-- `DocumentTextExtractor._get_heading_level` (document_extractor.py
lines 166-192): `heading N` pattern first, then `hN`, then the `title`
substring check, then the `subtitle` substring check, else 1.  An empty
style name yields `none` (Python `None`). -/
def get_heading_level (styleName : Str) : Option Nat :=
  if styleName = [] then none
  else
    let lower := pyLower styleName
    match findHeadingNum lower with
    | some n => some n
    | none =>
      match findHNum lower with
      | some n => some n
      | none =>
        if containsSub "title".data lower then some 1
        else if containsSub "subtitle".data lower then some 2
        else some 1

/-! ### Replacement applier (`apply_variable_replacements_to_document`) -/

/-- The replacement loop applied to one text: for each map entry in
insertion order, if the key occurs in the current text, replace all of its
occurrences (text_improver.py lines 340-343 and 353-356). -/
def applyReplacementsToText (reps : List (Str × Str)) (t : Str) : Str :=
  reps.foldl (fun txt kv => if containsSub kv.1 txt then replaceAll kv.1 kv.2 txt else txt) t

/-- The paragraph branch of the applier (text_improver.py lines 336-347):
read the paragraph's full text, run the replacements, and only when the
text changed write it back via the `paragraph.text` setter, which replaces
all runs by a single default-formatted run holding the new text. -/
def applyToParagraph (reps : List (Str × Str)) (p : Paragraph) : Paragraph :=
  let t := paraText p
  let t' := applyReplacementsToText reps t
  if t' ≠ t then { p with runs := [defaultRun t'] } else p

/-- `cell.text` in python-docx: the cell's paragraph texts joined by
newlines. -/
def cellText (c : Cell) : Str :=
  (c.map paraText).intersperse ['\n'] |>.foldl (· ++ ·) []

/-- The table-cell branch of the applier (text_improver.py lines 349-360):
read the cell's full text, run the replacements, and only when the text
changed write it back via the `cell.text` setter, which replaces the
cell's content by one paragraph holding one default-formatted run. -/
def applyToCell (reps : List (Str × Str)) (c : Cell) : Cell :=
  let t := cellText c
  let t' := applyReplacementsToText reps t
  if t' ≠ t then [⟨[], none, [defaultRun t']⟩] else c

/-- `TextImprover.apply_variable_replacements_to_document` (text_improver.py
lines 296-383) at the document level: rewrite the body paragraphs and the
table cells; the temp-file round trip, retry loops and byte decoding of
the Python code are I/O plumbing around this transformation.  Sections
(headers/footers) are not traversed. -/
def apply_variable_replacements_to_document (reps : List (Str × Str)) (d : DocumentM) :
    DocumentM :=
  { paragraphs := d.paragraphs.map (applyToParagraph reps),
    tables := d.tables.map (fun t => t.map (fun row => row.map (applyToCell reps))),
    sections := d.sections }

/-- All paragraph and table-cell texts of a document, the texts the
applier reads and rewrites. -/
def docTexts (d : DocumentM) : List Str :=
  d.paragraphs.map paraText
    ++ (d.tables.flatMap (fun t => t.flatMap (fun row => row.map cellText)))

/-! ### Content extractor (`DocumentTextExtractor`) -/

/-- The failure mode of extraction: the spec's taxonomy names the error
raised when the blob cannot be opened `DocumentParseError` (the code
re-raises any failure as `Exception("Failed to extract text from document
content: ...")`). -/
inductive ExtractError where
  | DocumentParseError
deriving DecidableEq, Repr

/-- `DocumentTextExtractor._is_heading_paragraph` (document_extractor.py
lines 155-164). -/
def is_heading_paragraph (styleName : Str) : Bool :=
  let lower := pyLower styleName
  ["heading", "title", "subtitle", "header", "h1", "h2", "h3", "h4", "h5", "h6"].any
    (fun ind => containsSub ind.data lower)

/-- `DocumentTextExtractor._get_alignment_text` (document_extractor.py
lines 194-207): the four mapped values, every other alignment (including
`None`) renders as `left`. -/
def get_alignment_text (a : Option ParaAlignment) : Str :=
  match a with
  | some .left => "left".data
  | some .center => "center".data
  | some .right => "right".data
  | some .justify => "justify".data
  | some .other => "left".data
  | none => "left".data

/-- One body-paragraph record of the content tree. -/
structure ParagraphData where
  text : Str
  style : Str
  is_heading : Bool
  alignment : Str
  runs_count : Nat
deriving DecidableEq, Repr

/-- One entry of the linearized `structured_text`. -/
structure StructuredItem where
  isHeading : Bool
  content : Str
  level : Option Nat
deriving DecidableEq, Repr

/-- One heading record. -/
structure HeadingData where
  text : Str
  level : Option Nat
  style : Str
deriving DecidableEq, Repr

/-- One cell record of a table. -/
structure CellData where
  index : Nat
  text : Str
deriving DecidableEq, Repr

/-- One row record of a table. -/
structure RowData where
  index : Nat
  cells : List CellData
deriving DecidableEq, Repr

/-- One table record of the content tree
(`_extract_table_content`, document_extractor.py lines 210-241). -/
structure TableData where
  index : Nat
  rows_count : Nat
  cols_count : Nat
  rows : List RowData
  text_content : List Str
deriving DecidableEq, Repr

/-- The derived metadata block. -/
structure MetadataM where
  total_paragraphs : Nat
  total_tables : Nat
  total_words : Nat
  has_headers : Bool
  has_footers : Bool
deriving DecidableEq, Repr

/-- The content tree produced by `_extract_document_content`
(document_extractor.py lines 67-153). -/
structure ContentTree where
  paragraphs : List ParagraphData
  headings : List HeadingData
  tables : List TableData
  headers : List Str
  footers : List Str
  full_text : Str
  structured_text : List StructuredItem
  metadata : MetadataM
deriving DecidableEq, Repr

/-- Python `str.split()` with no argument: the maximal runs of
non-whitespace characters. -/
def pySplitWsF : Nat → Str → List Str
  | 0, _ => []
  | _ + 1, [] => []
  | fuel + 1, c :: rest =>
    if isPySpace c then pySplitWsF fuel rest
    else
      ((c :: rest).takeWhile (fun x => ¬ isPySpace x))
        :: pySplitWsF fuel ((c :: rest).dropWhile (fun x => ¬ isPySpace x))

/-- `pySplitWsF` with enough fuel for any input: every recursive call
consumes at least one character. -/
def pySplitWs (s : Str) : List Str := pySplitWsF s.length s

/-- String-joining with a separator (Python `sep.join(parts)`). -/
def joinWith (sep : Str) (parts : List Str) : Str :=
  (parts.intersperse sep).foldl (· ++ ·) []

/-- The non-empty stripped body-paragraph texts with their source
paragraphs (the extractor skips paragraphs whose stripped text is empty,
document_extractor.py lines 91-94). -/
def keptParagraphs (d : DocumentM) : List Paragraph :=
  d.paragraphs.filter (fun p => pyStrip (paraText p) ≠ [])

/-- `_extract_table_content` (document_extractor.py lines 210-241). -/
def extract_table_content (t : Table) (idx : Nat) : TableData :=
  { index := idx,
    rows_count := t.length,
    cols_count := if t ≠ [] then (t.headI).length else 0,
    rows := t.enum.map (fun ri =>
      { index := ri.1,
        cells := ri.2.enum.map (fun ci => { index := ci.1, text := pyStrip (cellText ci.2) }) }),
    text_content := t.filterMap (fun row =>
      let rowTexts := (row.map (fun c => pyStrip (cellText c))).filter (fun x => x ≠ [])
      if rowTexts ≠ [] then some (joinWith " | ".data rowTexts) else none) }

/-- `_extract_headers_footers` for headers (document_extractor.py lines
245-267): the non-empty stripped header paragraph texts across sections. -/
def extract_headers (d : DocumentM) : List Str :=
  d.sections.flatMap (fun s =>
    (s.header.map (fun p => pyStrip (paraText p))).filter (fun t => t ≠ []))

/-- `_extract_headers_footers` for footers. -/
def extract_footers (d : DocumentM) : List Str :=
  d.sections.flatMap (fun s =>
    (s.footer.map (fun p => pyStrip (paraText p))).filter (fun t => t ≠ []))

/-- `_extract_document_content` (document_extractor.py lines 67-153). -/
def extract_document_content (d : DocumentM) : ContentTree :=
  let kept := keptParagraphs d
  let paragraphs := kept.map (fun p =>
    { text := pyStrip (paraText p),
      style := p.style,
      is_heading := is_heading_paragraph p.style,
      alignment := get_alignment_text p.alignment,
      runs_count := p.runs.length : ParagraphData })
  let structured := kept.map (fun p =>
    { isHeading := is_heading_paragraph p.style,
      content := pyStrip (paraText p),
      level := if is_heading_paragraph p.style then get_heading_level p.style else none
      : StructuredItem })
  let headings := (kept.filter (fun p => is_heading_paragraph p.style)).map (fun p =>
    { text := pyStrip (paraText p),
      level := get_heading_level p.style,
      style := p.style : HeadingData })
  let tables := d.tables.enum.map (fun ti => extract_table_content ti.2 ti.1)
  let headers := extract_headers d
  let footers := extract_footers d
  let cellParts := tables.flatMap (fun td =>
    td.rows.flatMap (fun r => (r.cells.map CellData.text).filter (fun t => pyStrip t ≠ [])))
  let fullText := joinWith ['\n'] ((structured.map StructuredItem.content) ++ cellParts)
  { paragraphs := paragraphs,
    headings := headings,
    tables := tables,
    headers := headers,
    footers := footers,
    full_text := fullText,
    structured_text := structured,
    metadata :=
      { total_paragraphs := paragraphs.length,
        total_tables := tables.length,
        total_words := (pySplitWs fullText).length,
        has_headers := headers.length > 0,
        has_footers := footers.length > 0 } }

/-- `DocumentTextExtractor.extract_from_content` (document_extractor.py
lines 41-65).  Opening the byte blob as a zipped-XML container is done by
the external python-docx library, so a blob is modelled by the outcome of
that opening step: `none` for bytes that do not open as a valid document.
The try-block wraps both the opening and the content walk, and any failure
surfaces as the spec's `DocumentParseError`; no partial tree escapes. -/
def extract_from_content (blob : Option DocumentM) : Except ExtractError ContentTree :=
  match blob with
  | none => .error .DocumentParseError
  | some d => .ok (extract_document_content d)

/-! ### Helper lemmas -/

theorem foldl_build_fst {α β σ : Type _} (step : List β × σ → α → List β × σ) (h : α → β)
    (hstep : ∀ acc a, (step acc a).1 = acc.1 ++ [h a]) :
    ∀ (l : List α) (init : List β) (u : σ), (l.foldl step (init, u)).1 = init ++ l.map h := by
  intro l
  induction l with
  | nil => intro init u; simp
  | cons a t ih =>
    intro init u
    simp only [List.foldl_cons, List.map_cons]
    have hP : step (init, u) a = ((step (init, u) a).1, (step (init, u) a).2) := rfl
    rw [hP, ih, hstep]
    simp

theorem foldl_build_snd {α β σ : Type _} (step : List β × σ → α → List β × σ) (g : σ → α → σ)
    (hstep : ∀ acc a, (step acc a).2 = g acc.2 a) :
    ∀ (l : List α) (init : List β) (u : σ), (l.foldl step (init, u)).2 = l.foldl g u := by
  intro l
  induction l with
  | nil => intro init u; simp
  | cons a t ih =>
    intro init u
    simp only [List.foldl_cons]
    have hP : step (init, u) a = ((step (init, u) a).1, (step (init, u) a).2) := rfl
    rw [hP, ih, hstep]

theorem mem_insertIfAbsent {y x : Str} {l : List Str} :
    y ∈ insertIfAbsent x l ↔ y = x ∨ y ∈ l := by
  unfold insertIfAbsent
  split
  · rename_i hx
    constructor
    · exact fun h => Or.inr h
    · rintro (rfl | h) <;> assumption
  · simp [or_comm]

theorem nodup_insertIfAbsent (x : Str) (l : List Str) (h : l.Nodup) :
    (insertIfAbsent x l).Nodup := by
  unfold insertIfAbsent
  split
  · exact h
  · rename_i hx
    simp [List.nodup_append, h, hx]

theorem nodup_insertAllNew (new : List Str) :
    ∀ l : List Str, l.Nodup → (insertAllNew l new).Nodup := by
  induction new with
  | nil => intro l h; exact h
  | cons a t ih =>
    intro l h
    exact ih _ (nodup_insertIfAbsent a l h)

theorem mem_insertAllNew {y : Str} (new : List Str) :
    ∀ l : List Str, y ∈ insertAllNew l new ↔ y ∈ l ∨ y ∈ new := by
  induction new with
  | nil => intro l; simp [insertAllNew]
  | cons a t ih =>
    intro l
    have : insertAllNew l (a :: t) = insertAllNew (insertIfAbsent a l) t := rfl
    rw [this, ih]
    simp [mem_insertIfAbsent]
    tauto

theorem findCI_occurs {needle : Str} :
    ∀ {hay : Str} {i : Nat}, findCI needle hay = some i →
      occursCIAt needle hay i ∧ ∀ j < i, ¬ occursCIAt needle hay j := by
  intro hay
  induction hay with
  | nil =>
    intro i h
    simp only [findCI] at h
    split at h
    · rename_i he
      cases h
      constructor
      · simp_all [occursCIAt, pyLower, List.isEmpty_iff]
      · omega
    · cases h
  | cons c t ih =>
    intro i h
    simp only [findCI] at h
    split at h
    · rename_i hpre
      cases h
      refine ⟨hpre, ?_⟩
      omega
    · rename_i hpre
      cases hfind : findCI needle t with
      | none => rw [hfind] at h; cases h
      | some i' =>
        rw [hfind] at h
        have hi : i = i' + 1 := by simpa using h.symm
        subst hi
        obtain ⟨h1, h2⟩ := ih hfind
        constructor
        · simpa [occursCIAt] using h1
        · intro j hj
          cases j with
          | zero => simpa [occursCIAt] using hpre
          | succ j' =>
            intro hocc
            exact h2 j' (by omega) (by simpa [occursCIAt] using hocc)

theorem findCI_none {needle : Str} :
    ∀ {hay : Str}, findCI needle hay = none → ∀ i, ¬ occursCIAt needle hay i := by
  intro hay
  induction hay with
  | nil =>
    intro h i
    simp only [findCI] at h
    split at h
    · cases h
    · rename_i he
      simp only [occursCIAt]
      intro hocc
      apply he
      cases hn : needle with
      | nil => simp [List.isEmpty]
      | cons a b =>
        exfalso
        rw [hn] at hocc
        simp [pyLower, List.isPrefixOf] at hocc
  | cons c t ih =>
    intro h i
    simp only [findCI] at h
    split at h
    · cases h
    · rename_i hpre
      cases hfind : findCI needle t with
      | some i' => rw [hfind] at h; cases h
      | none =>
        cases i with
        | zero => simpa [occursCIAt] using hpre
        | succ i' =>
          intro hocc
          exact ih hfind i' (by simpa [occursCIAt] using hocc)

/-- Whether a matched token is recorded as unfilled by `_fill_paragraph`:
its stripped name is absent from the map or resolves to the empty value. -/
def unfilledCond (m : List (Str × Str)) (g : Str) : Bool :=
  match List.lookup (pyStrip g) m with
  | some v => v.isEmpty
  | none => true

theorem fillRunText_snd (m : List (Str × Str)) (t : Str) :
    (fillRunText m t).2 = (scanTokens t).foldl
      (fun u g => if unfilledCond m g then insertIfAbsent (pyStrip g) u else u) [] := by
  unfold fillRunText
  rw [foldl_build_snd _ (fun u g => if unfilledCond m g then insertIfAbsent (pyStrip g) u else u)]
  intro acc g
  unfold unfilledCond
  cases h : List.lookup (pyStrip g) m with
  | none => simp [h]
  | some v => cases v <;> simp [h]

theorem mem_unfilledFold (m : List (Str × Str)) (gs : List Str) :
    ∀ (u : List Str) (y : Str),
      y ∈ gs.foldl (fun u g => if unfilledCond m g then insertIfAbsent (pyStrip g) u else u) u ↔
        y ∈ u ∨ ∃ g ∈ gs, unfilledCond m g ∧ pyStrip g = y := by
  induction gs with
  | nil => intro u y; simp
  | cons g t ih =>
    intro u y
    simp only [List.foldl_cons]
    rw [ih]
    by_cases hc : unfilledCond m g
    · simp only [hc, if_true, mem_insertIfAbsent]
      constructor
      · rintro ((rfl | hu) | hex)
        · exact Or.inr ⟨g, by simp, hc, rfl⟩
        · exact Or.inl hu
        · obtain ⟨g', hg', hcond, hstr⟩ := hex
          exact Or.inr ⟨g', by simp [hg'], hcond, hstr⟩
      · rintro (hu | hex)
        · exact Or.inl (Or.inr hu)
        · obtain ⟨g', hg', hcond, hstr⟩ := hex
          rcases List.mem_cons.mp hg' with rfl | hg'
          · exact Or.inl (Or.inl hstr.symm)
          · exact Or.inr ⟨g', hg', hcond, hstr⟩
    · simp only [hc, if_false]
      constructor
      · rintro (hu | hex)
        · exact Or.inl hu
        · obtain ⟨g', hg', hcond, hstr⟩ := hex
          exact Or.inr ⟨g', by simp [hg'], hcond, hstr⟩
      · rintro (hu | hex)
        · exact Or.inl hu
        · obtain ⟨g', hg', hcond, hstr⟩ := hex
          rcases List.mem_cons.mp hg' with rfl | hg'
          · exact absurd hcond (by simpa using hc)
          · exact Or.inr ⟨g', hg', hcond, hstr⟩

theorem mem_fillRunText_snd {m : List (Str × Str)} {t : Str} {y : Str} :
    y ∈ (fillRunText m t).2 ↔ ∃ g ∈ scanTokens t, unfilledCond m g ∧ pyStrip g = y := by
  rw [fillRunText_snd, mem_unfilledFold]
  simp

theorem fillRunText_noTokens (m : List (Str × Str)) (t : Str)
    (h : scanTokens t = []) : fillRunText m t = (t, []) := by
  unfold fillRunText
  rw [h]
  rfl

theorem fill_paragraph_fst (m : List (Str × Str)) (p : Paragraph) :
    (fill_paragraph m p).1 =
      if scanTokens (paraText p) = [] then p
      else { p with runs := p.runs.map (fun r => { r with text := (fillRunText m r.text).1 }) } := by
  unfold fill_paragraph
  split
  · rfl
  · simp only
    congr 1
    rw [foldl_build_fst _ (fun r => { r with text := (fillRunText m r.text).1 })]
    · simp
    · intro acc a
      rfl

theorem fill_paragraph_snd (m : List (Str × Str)) (p : Paragraph) :
    (fill_paragraph m p).2 =
      if scanTokens (paraText p) = [] then []
      else p.runs.foldl (fun u r => insertAllNew u (fillRunText m r.text).2) [] := by
  unfold fill_paragraph
  split
  · rfl
  · simp only
    rw [foldl_build_snd _ (fun u r => insertAllNew u (fillRunText m r.text).2)]
    intro acc a
    rfl

/-- Generic preservation of duplicate-freedom along a fold. -/
theorem nodup_foldl_preserve {α : Type _} (g : List Str → α → List Str)
    (hg : ∀ u a, u.Nodup → (g u a).Nodup) (l : List α) :
    ∀ u : List Str, u.Nodup → (l.foldl g u).Nodup := by
  induction l with
  | nil => intro u h; exact h
  | cons a t ih => intro u h; exact ih _ (hg u a h)

theorem nodup_fill_paragraph_snd (m : List (Str × Str)) (p : Paragraph) :
    (fill_paragraph m p).2.Nodup := by
  rw [fill_paragraph_snd]
  split
  · exact List.nodup_nil
  · exact nodup_foldl_preserve _ (fun u r hu => nodup_insertAllNew _ u hu) _ [] List.nodup_nil

theorem fillParas_fst (m : List (Str × Str)) (ps : List Paragraph) :
    (fillParas m ps).1 = ps.map (fun p => (fill_paragraph m p).1) := by
  unfold fillParas
  rw [foldl_build_fst _ (fun p => (fill_paragraph m p).1)]
  · simp
  · intro acc a; rfl

theorem fillParas_snd (m : List (Str × Str)) (ps : List Paragraph) :
    (fillParas m ps).2 = ps.foldl (fun u p => insertAllNew u (fill_paragraph m p).2) [] := by
  unfold fillParas
  rw [foldl_build_snd _ (fun u p => insertAllNew u (fill_paragraph m p).2)]
  intro acc a; rfl

theorem nodup_fillParas_snd (m : List (Str × Str)) (ps : List Paragraph) :
    (fillParas m ps).2.Nodup := by
  rw [fillParas_snd]
  exact nodup_foldl_preserve _ (fun u p hu => nodup_insertAllNew _ u hu) _ [] List.nodup_nil

theorem fillCells_fst (m : List (Str × Str)) (row : List Cell) (u0 : List Str) :
    (fillCells m row u0).1 = row.map (fun c => (fillParas m c).1) := by
  unfold fillCells
  rw [foldl_build_fst _ (fun c => (fillParas m c).1)]
  · simp
  · intro acc a; rfl

theorem fillCells_snd (m : List (Str × Str)) (row : List Cell) (u0 : List Str) :
    (fillCells m row u0).2 = row.foldl (fun u c => insertAllNew u (fillParas m c).2) u0 := by
  unfold fillCells
  rw [foldl_build_snd _ (fun u c => insertAllNew u (fillParas m c).2)]
  intro acc a; rfl

theorem nodup_fillCells_snd (m : List (Str × Str)) (row : List Cell) (u0 : List Str)
    (h : u0.Nodup) : (fillCells m row u0).2.Nodup := by
  rw [fillCells_snd]
  exact nodup_foldl_preserve _ (fun u c hu => nodup_insertAllNew _ u hu) _ u0 h

theorem fillRows_fst (m : List (Str × Str)) (t : Table) (u0 : List Str) :
    (fillRows m t u0).1 = t.map (fun row => row.map (fun c => (fillParas m c).1)) := by
  unfold fillRows
  rw [foldl_build_fst _ (fun row => row.map (fun c => (fillParas m c).1))]
  · simp
  · intro acc a
    rw [fillCells_fst]

theorem fillRows_snd (m : List (Str × Str)) (t : Table) (u0 : List Str) :
    (fillRows m t u0).2 = t.foldl (fun u row => (fillCells m row u).2) u0 := by
  unfold fillRows
  rw [foldl_build_snd _ (fun u row => (fillCells m row u).2)]
  intro acc a; rfl

theorem nodup_fillRows_snd (m : List (Str × Str)) (t : Table) (u0 : List Str)
    (h : u0.Nodup) : (fillRows m t u0).2.Nodup := by
  rw [fillRows_snd]
  exact nodup_foldl_preserve _ (fun u row hu => nodup_fillCells_snd m row u hu) _ u0 h

theorem fillTables_fst (m : List (Str × Str)) (ts : List Table) (u0 : List Str) :
    (fillTables m ts u0).1 =
      ts.map (fun t => t.map (fun row => row.map (fun c => (fillParas m c).1))) := by
  unfold fillTables
  rw [foldl_build_fst _ (fun t => t.map (fun row => row.map (fun c => (fillParas m c).1)))]
  · simp
  · intro acc a
    rw [fillRows_fst]

theorem fillTables_snd (m : List (Str × Str)) (ts : List Table) (u0 : List Str) :
    (fillTables m ts u0).2 = ts.foldl (fun u t => (fillRows m t u).2) u0 := by
  unfold fillTables
  rw [foldl_build_snd _ (fun u t => (fillRows m t u).2)]
  intro acc a; rfl

theorem nodup_fillTables_snd (m : List (Str × Str)) (ts : List Table) (u0 : List Str)
    (h : u0.Nodup) : (fillTables m ts u0).2.Nodup := by
  rw [fillTables_snd]
  exact nodup_foldl_preserve _ (fun u t hu => nodup_fillRows_snd m t u hu) _ u0 h

theorem fillHeaders_fst (m : List (Str × Str)) (ss : List Section) (u0 : List Str) :
    (fillHeaders m ss u0).1 =
      ss.map (fun s => { s with header := (fillParas m s.header).1 }) := by
  unfold fillHeaders
  rw [foldl_build_fst _ (fun s => { s with header := (fillParas m s.header).1 })]
  · simp
  · intro acc a; rfl

theorem fillHeaders_snd (m : List (Str × Str)) (ss : List Section) (u0 : List Str) :
    (fillHeaders m ss u0).2 =
      ss.foldl (fun u s => insertAllNew u (fillParas m s.header).2) u0 := by
  unfold fillHeaders
  rw [foldl_build_snd _ (fun u s => insertAllNew u (fillParas m s.header).2)]
  intro acc a; rfl

theorem nodup_fillHeaders_snd (m : List (Str × Str)) (ss : List Section) (u0 : List Str)
    (h : u0.Nodup) : (fillHeaders m ss u0).2.Nodup := by
  rw [fillHeaders_snd]
  exact nodup_foldl_preserve _ (fun u s hu => nodup_insertAllNew _ u hu) _ u0 h

theorem fillFooters_fst (m : List (Str × Str)) (ss : List Section) (u0 : List Str) :
    (fillFooters m ss u0).1 =
      ss.map (fun s => { s with footer := (fillParas m s.footer).1 }) := by
  unfold fillFooters
  rw [foldl_build_fst _ (fun s => { s with footer := (fillParas m s.footer).1 })]
  · simp
  · intro acc a; rfl

theorem fillFooters_snd (m : List (Str × Str)) (ss : List Section) (u0 : List Str) :
    (fillFooters m ss u0).2 =
      ss.foldl (fun u s => insertAllNew u (fillParas m s.footer).2) u0 := by
  unfold fillFooters
  rw [foldl_build_snd _ (fun u s => insertAllNew u (fillParas m s.footer).2)]
  intro acc a; rfl

theorem nodup_fillFooters_snd (m : List (Str × Str)) (ss : List Section) (u0 : List Str)
    (h : u0.Nodup) : (fillFooters m ss u0).2.Nodup := by
  rw [fillFooters_snd]
  exact nodup_foldl_preserve _ (fun u s hu => nodup_insertAllNew _ u hu) _ u0 h

/-- The non-text formatting attributes of a run. -/
def runFmt (r : Run) : Bool × Bool × Str × Str := (r.bold, r.italic, r.font, r.color)

/-- Everything of a paragraph except its run texts: style, alignment, and
each run's formatting attributes. -/
def paraShape (p : Paragraph) : Str × Option ParaAlignment × List (Bool × Bool × Str × Str) :=
  (p.style, p.alignment, p.runs.map runFmt)

/-- Shapes of a list of paragraphs. -/
def parasShape (ps : List Paragraph) : List (Str × Option ParaAlignment × List (Bool × Bool × Str × Str)) :=
  ps.map paraShape

/-- Everything of a document except its run texts. -/
def docShape (d : DocumentM) :=
  (parasShape d.paragraphs,
   d.tables.map (fun t => t.map (fun row => row.map parasShape)),
   d.sections.map (fun s => (parasShape s.header, parasShape s.footer)))

theorem paraShape_fill (m : List (Str × Str)) (p : Paragraph) :
    paraShape (fill_paragraph m p).1 = paraShape p := by
  rw [fill_paragraph_fst]
  split
  · rfl
  · have h3 : (List.map (fun r => { r with text := (fillRunText m r.text).1 }) p.runs).map runFmt
        = p.runs.map runFmt := by
      rw [List.map_map]
      exact List.map_congr_left (fun r _ => rfl)
    simp only [paraShape]
    rw [h3]

theorem parasShape_fillParas (m : List (Str × Str)) (ps : List Paragraph) :
    parasShape (fillParas m ps).1 = parasShape ps := by
  rw [fillParas_fst]
  simp only [parasShape, List.map_map]
  exact List.map_congr_left (fun p _ => paraShape_fill m p)

/--
C5: for every document and placeholder map, `fill` preserves the
document's structure — the number of paragraphs, the number of tables,
each table's row and cell counts, and every run's non-text formatting
attributes (together with styles and alignments) are identical between
input and output; only run text content may differ.
-/
theorem fill_preserves_document_structure (d : DocumentM) (m : List (Str × Str)) :
    docShape (fill_template_with_client_data m d).1 = docShape d ∧
    (fill_template_with_client_data m d).1.paragraphs.length = d.paragraphs.length ∧
    (fill_template_with_client_data m d).1.tables.length = d.tables.length ∧
    (fill_template_with_client_data m d).1.tables.map List.length
      = d.tables.map List.length ∧
    (fill_template_with_client_data m d).1.tables.map (fun t => t.map List.length)
      = d.tables.map (fun t => t.map List.length) := by
  have hp : (fill_template_with_client_data m d).1.paragraphs =
      (fillParas m d.paragraphs).1 := rfl
  have ht : (fill_template_with_client_data m d).1.tables =
      (fillTables m d.tables (fillParas m d.paragraphs).2).1 := rfl
  have hs : (fill_template_with_client_data m d).1.sections =
      (fillFooters m
        (fillHeaders m d.sections (fillTables m d.tables (fillParas m d.paragraphs).2).2).1
        (fillHeaders m d.sections (fillTables m d.tables (fillParas m d.paragraphs).2).2).2).1 := rfl
  refine ⟨?_, ?_, ?_, ?_, ?_⟩
  · unfold docShape
    rw [hp, ht, hs, fillTables_fst, fillFooters_fst, fillHeaders_fst,
      parasShape_fillParas]
    simp only [Prod.mk.injEq]
    refine ⟨trivial, ?_, ?_⟩
    · simp only [List.map_map]
      refine List.map_congr_left (fun t _ => ?_)
      simp only [Function.comp_apply, List.map_map]
      refine List.map_congr_left (fun row _ => ?_)
      simp only [Function.comp_apply, List.map_map]
      refine List.map_congr_left (fun c _ => ?_)
      simp only [Function.comp_apply]
      exact parasShape_fillParas m c
    · simp only [List.map_map]
      refine List.map_congr_left (fun s _ => ?_)
      simp only [Function.comp_apply]
      refine Prod.ext ?_ ?_
      · simpa using parasShape_fillParas m s.header
      · simpa using parasShape_fillParas m s.footer
  · rw [hp, fillParas_fst, List.length_map]
  · rw [ht, fillTables_fst, List.length_map]
  · rw [ht, fillTables_fst, List.map_map]
    exact List.map_congr_left (fun t _ => by simp)
  · rw [ht, fillTables_fst, List.map_map]
    refine List.map_congr_left (fun t _ => ?_)
    simp only [Function.comp_apply, List.map_map]
    exact List.map_congr_left (fun row _ => by simp)

/-- A fold whose steps fix the accumulator returns its initial value. -/
theorem foldl_eq_init {α σ : Type _} (g : σ → α → σ) :
    ∀ (l : List α), (∀ (u : σ), ∀ a ∈ l, g u a = u) → ∀ u, l.foldl g u = u := by
  intro l
  induction l with
  | nil => intro _ u; rfl
  | cons a t ih =>
    intro h u
    simp only [List.foldl_cons]
    rw [h u a (by simp)]
    exact ih (fun u' a' ha' => h u' a' (by simp [ha'])) u

/--
C7 (amended): for every document and value mapping, the unfilled_names
component returned by `fill` is a collection of distinct placeholder
names — no duplicates; its order is the iteration order of a Python set
and in particular is not sorted.
-/
theorem fill_unfilled_names_nodup (d : DocumentM) (m : List (Str × Str)) :
    (fill_template_with_client_data m d).2.Nodup := by
  have h : (fill_template_with_client_data m d).2 =
      (fillFooters m
        (fillHeaders m d.sections (fillTables m d.tables (fillParas m d.paragraphs).2).2).1
        (fillHeaders m d.sections (fillTables m d.tables (fillParas m d.paragraphs).2).2).2).2 := rfl
  rw [h]
  apply nodup_fillFooters_snd
  apply nodup_fillHeaders_snd
  apply nodup_fillTables_snd
  exact nodup_fillParas_snd m d.paragraphs

/-- Ascending lexicographic order on embedded strings (the order of
Python string comparison, restricted to the character level). -/
def lexLe : Str → Str → Bool
  | [], _ => true
  | _ :: _, [] => false
  | a :: as, b :: bs => if a < b then true else if a = b then lexLe as bs else false

/-- A document whose only paragraph holds the tokens `{{b}}{{a}}` in that
order. -/
def exC7Doc : DocumentM :=
  ⟨[mkPara [defaultRun "\x7b\x7bb\x7d\x7d\x7b\x7ba\x7d\x7d".data]], [], []⟩

/--
C7 (counterexample): filling `exC7Doc` with the empty mapping returns the
unfilled names as `["b", "a"]` — distinct, but not in ascending order, so
the unfilled_names collection is not a sorted set as the claim states
(the code returns `list(unfilled)` from a `set` without sorting; only
`extract_all_placeholders` sorts).
-/
theorem fill_unfilled_names_not_sorted :
    (fill_template_with_client_data [] exC7Doc).2 = ["b".data, "a".data] ∧
    ¬ List.Sorted (fun a b => lexLe a b = true)
        (fill_template_with_client_data [] exC7Doc).2 := by
  constructor
  · rfl
  · decide

/--
C2: for every value mapping and paragraph in which a placeholder token's
characters are split across runs — the paragraph's concatenated text
contains a `{{...}}` token but no single run's text does — `fill` leaves
the paragraph completely unchanged (the token characters stay as literal
text) and reports no unfilled names from it.
-/
theorem fill_paragraph_split_token_left_as_literal (m : List (Str × Str)) (p : Paragraph)
    (hfull : scanTokens (paraText p) ≠ [])
    (hruns : ∀ r ∈ p.runs, scanTokens r.text = []) :
    fill_paragraph m p = (p, []) := by
  unfold fill_paragraph
  rw [if_neg hfull]
  show ({ p with runs := (p.runs.foldl _ ([], [])).1 }, (p.runs.foldl _ ([], [])).2) = (p, [])
  have hfst : (p.runs.foldl
      (fun (acc : List Run × List Str) run =>
        (acc.1 ++ [{ run with text := (fillRunText m run.text).1 }],
         insertAllNew acc.2 (fillRunText m run.text).2)) ([], [])).1 = p.runs := by
    rw [foldl_build_fst _ (fun run => { run with text := (fillRunText m run.text).1 })
      (fun acc a => rfl)]
    simp only [List.nil_append]
    have : ∀ r ∈ p.runs, { r with text := (fillRunText m r.text).1 } = r := by
      intro r hr
      rw [fillRunText_noTokens m r.text (hruns r hr)]
    exact (List.map_congr_left this).trans (List.map_id _)
  have hsnd : (p.runs.foldl
      (fun (acc : List Run × List Str) run =>
        (acc.1 ++ [{ run with text := (fillRunText m run.text).1 }],
         insertAllNew acc.2 (fillRunText m run.text).2)) ([], [])).2 = [] := by
    rw [foldl_build_snd _ (fun u run => insertAllNew u (fillRunText m run.text).2)
      (fun acc a => rfl)]
    exact foldl_eq_init _ _
      (fun u r hr => by rw [fillRunText_noTokens m r.text (hruns r hr)]; rfl) []
  rw [hfst, hsnd]

/-- A paragraph whose token `{{client_name}}` is split across two runs. -/
def exC2Para : Paragraph :=
  mkPara [defaultRun "\x7b\x7bclient_".data, defaultRun "name\x7d\x7d".data]

/-- Witness for C2 at a concrete split-token paragraph. -/
theorem fill_paragraph_split_token_left_as_literal_witness :
    fill_paragraph [("client_name".data, "Acme Pte Ltd".data)] exC2Para = (exC2Para, []) :=
  fill_paragraph_split_token_left_as_literal _ exC2Para (by decide) (by decide)

/-- A document whose only paragraph holds the single token
`{{client_name}}` in one run. -/
def exC3Doc : DocumentM :=
  ⟨[mkPara [defaultRun "\x7b\x7bclient_name\x7d\x7d".data]], [], []⟩

/--
C3: for every value mapping and run text, a `{{name}}` token matched
within the run is replaced when the name resolves to a non-empty value
(so its name is never reported unfilled), while a name that is absent or
resolves to the empty value is reported unfilled and its token text is
left unchanged.  In particular, filling a document holding
`{{client_name}}` with the mapping `client_name ↦ ""` leaves the document
(and the literal token) unchanged and reports `client_name` unfilled,
while the mapping `client_name ↦ "Acme"` rewrites the run text to `Acme`.
-/
theorem fill_empty_or_missing_reported_unfilled (m : List (Str × Str)) (t : Str) :
    (∀ g ∈ scanTokens t, ∀ v, List.lookup (pyStrip g) m = some v → v ≠ [] →
        pyStrip g ∉ (fillRunText m t).2) ∧
    (∀ g ∈ scanTokens t,
        (List.lookup (pyStrip g) m = some [] ∨ List.lookup (pyStrip g) m = none) →
        pyStrip g ∈ (fillRunText m t).2) ∧
    fill_template_with_client_data [("client_name".data, [])] exC3Doc
      = (exC3Doc, ["client_name".data]) ∧
    fillRunText [("client_name".data, "Acme".data)] "\x7b\x7bclient_name\x7d\x7d".data
      = ("Acme".data, []) := by
  refine ⟨?_, ?_, by decide, by decide⟩
  · intro g hg v hv hne hmem
    rw [mem_fillRunText_snd] at hmem
    obtain ⟨g', _, hcond, hstr⟩ := hmem
    rw [unfilledCond, hstr, hv] at hcond
    cases v with
    | nil => exact hne rfl
    | cons a b => simp at hcond
  · intro g hg hcase
    rw [mem_fillRunText_snd]
    refine ⟨g, hg, ?_, rfl⟩
    rw [unfilledCond]
    rcases hcase with hempty | hnone
    · rw [hempty]
      rfl
    · rw [hnone]

/-- Witness for C3's universally quantified parts at concrete inputs: the
token name `client_name` mapped to the empty value is reported unfilled,
and mapped to `Acme` it is not reported. -/
theorem fill_empty_or_missing_reported_unfilled_witness :
    "client_name".data ∈
      (fillRunText [("client_name".data, [])] "\x7b\x7bclient_name\x7d\x7d".data).2 ∧
    "client_name".data ∉
      (fillRunText [("client_name".data, "Acme".data)] "\x7b\x7bclient_name\x7d\x7d".data).2 := by
  constructor
  · exact (fill_empty_or_missing_reported_unfilled
      [("client_name".data, [])] "\x7b\x7bclient_name\x7d\x7d".data).2.1
      "client_name".data (by decide) (Or.inl (by decide))
  · exact (fill_empty_or_missing_reported_unfilled
      [("client_name".data, "Acme".data)] "\x7b\x7bclient_name\x7d\x7d".data).1
      "client_name".data (by decide) "Acme".data (by decide) (by decide)

/-- A document with an empty body and one section whose header holds the
token `{{a}}`. -/
def exC10Doc : DocumentM :=
  ⟨[], [], [⟨[mkPara [defaultRun "\x7b\x7ba\x7d\x7d".data]], []⟩]⟩

/--
C10: for every replacement map and document, the Replacement Applier
rewrites only body paragraphs and table cells — the sections (headers and
footers) come through unchanged even when their text contains a key of
the map — unlike `fill`, whose traversal covers headers and footers, as
the concrete document `exC10Doc` shows.
-/
theorem applier_leaves_headers_footers_unchanged :
    (∀ (reps : List (Str × Str)) (d : DocumentM),
        (apply_variable_replacements_to_document reps d).sections = d.sections) ∧
    (fill_template_with_client_data [("a".data, "v".data)] exC10Doc).1.sections
      ≠ exC10Doc.sections := by
  constructor
  · intro reps d
    rfl
  · decide

/-- The counterexample replacement map for C4: the single key `ab` maps to
the value `a`, which contains no key of the map as a substring. -/
def exC4Reps : List (Str × Str) := [("ab".data, "a".data)]

/-- The counterexample document for C4: one body paragraph reading `abb`. -/
def exC4Doc : DocumentM := ⟨[mkPara [defaultRun "abb".data]], [], []⟩

/--
C4 (counterexample): the map `{ab ↦ a}` has no value that contains a key
of the map as a substring, yet applying it twice to the document `abb` is
not the same as applying it once: the first pass rewrites `abb` to `ab`
(replacing `ab` leaves `a`, then the final `b` follows it), re-creating
the key at the seam, and the second pass rewrites `ab` to `a`.
-/
theorem apply_replacements_not_idempotent :
    (∀ kv ∈ exC4Reps, ∀ kv' ∈ exC4Reps, containsSub kv'.1 kv.2 = false) ∧
    docTexts (apply_variable_replacements_to_document exC4Reps exC4Doc) = ["ab".data] ∧
    docTexts (apply_variable_replacements_to_document exC4Reps
      (apply_variable_replacements_to_document exC4Reps exC4Doc)) = ["a".data] ∧
    apply_variable_replacements_to_document exC4Reps
        (apply_variable_replacements_to_document exC4Reps exC4Doc)
      ≠ apply_variable_replacements_to_document exC4Reps exC4Doc := by
  refine ⟨by decide, by decide, by decide, by decide⟩

theorem applyReplacementsToText_id (reps : List (Str × Str)) (t : Str)
    (h : ∀ kv ∈ reps, containsSub kv.1 t = false) :
    applyReplacementsToText reps t = t := by
  unfold applyReplacementsToText
  induction reps with
  | nil => rfl
  | cons kv rest ih =>
    simp only [List.foldl_cons]
    rw [h kv (by simp)]
    simp only [Bool.false_eq_true, if_false]
    exact ih (fun kv' hkv' => h kv' (by simp [hkv']))

theorem applyToParagraph_id (reps : List (Str × Str)) (p : Paragraph)
    (h : applyReplacementsToText reps (paraText p) = paraText p) :
    applyToParagraph reps p = p := by
  unfold applyToParagraph
  simp [h]

theorem applyToCell_id (reps : List (Str × Str)) (c : Cell)
    (h : applyReplacementsToText reps (cellText c) = cellText c) :
    applyToCell reps c = c := by
  unfold applyToCell
  simp [h]

/--
C4 (amended): applying the Replacement Applier twice yields the same
document as applying it once, provided no key of the map occurs as a
substring of any paragraph/cell text of the once-applied document (the
condition the spec intends by "no key remains present as a literal
substring after the first pass").
-/
theorem apply_replacements_idempotent_when_keys_gone (reps : List (Str × Str)) (d : DocumentM)
    (h : ∀ t ∈ docTexts (apply_variable_replacements_to_document reps d),
        ∀ kv ∈ reps, containsSub kv.1 t = false) :
    apply_variable_replacements_to_document reps (apply_variable_replacements_to_document reps d)
      = apply_variable_replacements_to_document reps d := by
  have hid : ∀ t ∈ docTexts (apply_variable_replacements_to_document reps d),
      applyReplacementsToText reps t = t :=
    fun t ht => applyReplacementsToText_id reps t (h t ht)
  have hpara : ∀ p ∈ (apply_variable_replacements_to_document reps d).paragraphs,
      applyToParagraph reps p = p := by
    intro p hp
    apply applyToParagraph_id
    apply hid
    unfold docTexts
    exact List.mem_append_left _ (List.mem_map_of_mem paraText hp)
  have hcell : ∀ t ∈ (apply_variable_replacements_to_document reps d).tables,
      ∀ row ∈ t, ∀ c ∈ row, applyToCell reps c = c := by
    intro t ht row hrow c hc
    apply applyToCell_id
    apply hid
    unfold docTexts
    apply List.mem_append_right
    exact List.mem_flatMap.mpr ⟨t, ht,
      List.mem_flatMap.mpr ⟨row, hrow, List.mem_map_of_mem cellText hc⟩⟩
  have h1 : (apply_variable_replacements_to_document reps d).paragraphs.map
      (applyToParagraph reps) = (apply_variable_replacements_to_document reps d).paragraphs :=
    (List.map_congr_left hpara).trans (List.map_id _)
  have h2 : (apply_variable_replacements_to_document reps d).tables.map
      (fun t => t.map (fun row => row.map (applyToCell reps)))
      = (apply_variable_replacements_to_document reps d).tables := by
    refine (List.map_congr_left ?_).trans (List.map_id _)
    intro t ht
    refine (List.map_congr_left ?_).trans (List.map_id _)
    intro row hrow
    refine (List.map_congr_left ?_).trans (List.map_id _)
    intro c hc
    exact hcell t ht row hrow c hc
  have hunfold : apply_variable_replacements_to_document reps
      (apply_variable_replacements_to_document reps d) =
      DocumentM.mk
        ((apply_variable_replacements_to_document reps d).paragraphs.map (applyToParagraph reps))
        ((apply_variable_replacements_to_document reps d).tables.map
          (fun t => t.map (fun row => row.map (applyToCell reps))))
        ((apply_variable_replacements_to_document reps d).sections) := rfl
  rw [hunfold, h1, h2]

/-- The witness document and map for the amended C4: one paragraph `x`,
one replacement `x ↦ y`; after the first pass no key remains. -/
def exC4WitnessDoc : DocumentM := ⟨[mkPara [defaultRun "x".data]], [], []⟩

/-- Witness for the amended C4 at a concrete document and map. -/
theorem apply_replacements_idempotent_when_keys_gone_witness :
    apply_variable_replacements_to_document [("x".data, "y".data)]
        (apply_variable_replacements_to_document [("x".data, "y".data)] exC4WitnessDoc)
      = apply_variable_replacements_to_document [("x".data, "y".data)] exC4WitnessDoc :=
  apply_replacements_idempotent_when_keys_gone [("x".data, "y".data)] exC4WitnessDoc (by decide)

/-- The truncated AI response of the spec's example: a JSON object cut
mid-array after the incomplete second element. -/
def exC1Input : Str :=
  "\x7b\"variables\": [\x7b\"name\":\"a\"\x7d, \x7b\"name\":\"b\"".data

/--
C1: the repair of a truncated AI response proceeds in the three stages the
spec describes (parse as-is; trim to the rightmost `},`/`}]` boundary,
close unmatched brackets and braces, re-parse; otherwise fail with
`AIResponseTruncatedError`); on the spec's example input
`{"variables": [{"name":"a"}, {"name":"b"` it recovers exactly the object
whose `variables` array holds the single complete `{"name":"a"}` entry —
no fabricated `"b"` entry — and on an irreparable input it fails with
`AIResponseTruncatedError`.
-/
theorem repair_truncated_json_three_stages :
    (∀ t : Str, repair_truncated_json t = spec_stagedRepair t) ∧
    repair_truncated_json exC1Input =
      Except.ok (JValue.jobj [("variables".data,
        JValue.jarr [JValue.jobj [("name".data, JValue.jstr "a".data)]])]) ∧
    repair_truncated_json "\x7b\"a\":\"x".data =
      Except.error RepairError.AIResponseTruncatedError :=
  ⟨fun _ => rfl, rfl, rfl⟩

/--
C6: evaluating the heading-level computation at the style name
`Subtitle`.  Because `'title' in style_lower` is checked before
`'subtitle' in style_lower` and `title` is a substring of `subtitle`, the
`subtitle → 2` branch of the code is unreachable and the computed level
is 1, where the spec (and the claim) say 2.
-/
theorem get_heading_level_subtitle_eval :
    get_heading_level "Subtitle".data = some 1 ∧
    containsSub "title".data (pyLower "Subtitle".data) = true :=
  ⟨rfl, rfl⟩

/--
C9: extraction is all-or-nothing — a blob that does not open as a valid
document container fails with `DocumentParseError`, and every extraction
either fully succeeds with a content tree or fails with that error; no
partial tree is returned.
-/
theorem extract_from_content_all_or_error (blob : Option DocumentM) :
    (blob = none → extract_from_content blob = Except.error ExtractError.DocumentParseError) ∧
    ((∃ t, extract_from_content blob = Except.ok t) ∨
      extract_from_content blob = Except.error ExtractError.DocumentParseError) := by
  constructor
  · intro h
    rw [h]
    rfl
  · cases blob with
    | none => exact Or.inr rfl
    | some d => exact Or.inl ⟨extract_document_content d, rfl⟩

/-- Witness for C9: the unopenable blob fails with `DocumentParseError`. -/
theorem extract_from_content_all_or_error_witness :
    extract_from_content none = Except.error ExtractError.DocumentParseError :=
  (extract_from_content_all_or_error none).1 rfl

/--
C8 (amended): the variable list built by `_parse_ai_response` is, up to
the stable ascending sort by start offset (unset offsets ordering as 0),
the per-suggestion offset recovery; for a non-empty `original_text` the
recovered start offset is exactly the first (leftmost) case-insensitive
occurrence in the clean text, the end offset is start plus the length,
and the offsets stay unset when no occurrence exists; for an empty
`original_text` the offsets stay unset without a search.
-/
theorem parse_ai_response_offsets_and_order (clean : Str) (vars : List VarIn) :
    List.Sorted (fun a b => sortKey a ≤ sortKey b) (parse_ai_response_variables clean vars) ∧
    (parse_ai_response_variables clean vars).Perm (vars.map (processVariable clean)) ∧
    (∀ v ∈ vars, v.original_text ≠ [] →
      (∀ i, (processVariable clean v).start_position = some i →
        occursCIAt v.original_text clean i ∧
        (∀ j < i, ¬ occursCIAt v.original_text clean j) ∧
        (processVariable clean v).end_position = some (i + v.original_text.length)) ∧
      ((processVariable clean v).start_position = none →
        ∀ i, ¬ occursCIAt v.original_text clean i)) ∧
    (∀ v ∈ vars, v.original_text = [] →
      (processVariable clean v).start_position = none ∧
      (processVariable clean v).end_position = none) := by
  refine ⟨?_, List.mergeSort_perm _ _, ?_, ?_⟩
  · have hs := @List.sorted_mergeSort TemplateVariable
      (fun a b : TemplateVariable => decide (sortKey a ≤ sortKey b))
      (fun a b c h1 h2 => by
        simp only [decide_eq_true_iff] at h1 h2 ⊢
        omega)
      (fun a b => by
        simp only [Bool.or_eq_true, decide_eq_true_iff]
        omega)
      (vars.map (processVariable clean))
    exact hs.imp (fun h => by simpa using h)
  · intro v _ horig
    constructor
    · intro i hi
      have hoff : (processVariable clean v).start_position
          = (recoveredOffsets clean v.original_text).1 := rfl
      rw [hoff] at hi
      unfold recoveredOffsets at hi
      rw [if_pos horig] at hi
      cases hf : findCI v.original_text clean with
      | none => rw [hf] at hi; cases hi
      | some i0 =>
        rw [hf] at hi
        have hii : i = i0 := by
          simpa using hi.symm
        subst hii
        obtain ⟨h1, h2⟩ := findCI_occurs hf
        refine ⟨h1, h2, ?_⟩
        have : (processVariable clean v).end_position
            = (recoveredOffsets clean v.original_text).2 := rfl
        rw [this]
        unfold recoveredOffsets
        rw [if_pos horig, hf]
    · intro hnone i
      have hoff : (processVariable clean v).start_position
          = (recoveredOffsets clean v.original_text).1 := rfl
      rw [hoff] at hnone
      unfold recoveredOffsets at hnone
      rw [if_pos horig] at hnone
      cases hf : findCI v.original_text clean with
      | none => exact findCI_none hf i
      | some i0 => rw [hf] at hnone; cases hnone
  · intro v _ hempty
    constructor
    · have hoff : (processVariable clean v).start_position
          = (recoveredOffsets clean v.original_text).1 := rfl
      rw [hoff]
      unfold recoveredOffsets
      rw [if_neg (by simp [hempty])]
    · have hoff : (processVariable clean v).end_position
          = (recoveredOffsets clean v.original_text).2 := rfl
      rw [hoff]
      unfold recoveredOffsets
      rw [if_neg (by simp [hempty])]

/-- A variable suggestion whose `original_text` is the empty string. -/
def exC8EmptyVar : VarIn :=
  ⟨"n".data, [], "p".data, "d".data, "text".data, "c".data⟩

/--
C8 (counterexample): for a suggestion with empty `original_text` the
offsets are left unset even though a (vacuous) first occurrence of the
empty string exists at index 0 of the clean text — the code skips the
search for a falsy `original_text` instead of using the search result, so
"offsets are unset exactly when no occurrence exists" fails as stated.
-/
theorem parse_ai_response_empty_original_counterexample :
    occursCIAt [] "x".data 0 ∧
    (processVariable "x".data exC8EmptyVar).start_position = none ∧
    (processVariable "x".data exC8EmptyVar).end_position = none :=
  ⟨rfl, rfl, rfl⟩

/-- The clean text and suggestion of the C8 witness. -/
def exC8CleanText : Str := "The Acme Corp".data

/-- A suggestion whose `original_text` occurs (case-insensitively) in
`exC8CleanText` at index 4. -/
def exC8Var : VarIn :=
  ⟨"client_company_name".data, "acme".data, "pp".data, "dd".data, "text".data, "cc".data⟩

/-- Witness for the amended C8 at a concrete clean text and suggestion:
the recovered start offset 4 is the first case-insensitive occurrence of
`acme` in `The Acme Corp` and the end offset is start plus length. -/
theorem parse_ai_response_offsets_and_order_witness :
    occursCIAt exC8Var.original_text exC8CleanText 4 ∧
    (∀ j < 4, ¬ occursCIAt exC8Var.original_text exC8CleanText j) ∧
    (processVariable exC8CleanText exC8Var).end_position
      = some (4 + exC8Var.original_text.length) :=
  ((parse_ai_response_offsets_and_order exC8CleanText [exC8Var]).2.2.1
    exC8Var (by decide) (by decide)).1 4 rfl
